import Mathlib

set_option maxHeartbeats 1000000

/-!
Verification of the mcp-gitlab server: a shallow embedding of the
repository tool handlers, the call-tool dispatch and the streamable-HTTP
session transport of the GitLab MCP server, together with a model of the
response formatter described in the design document.
-/

/-! ## JavaScript value model -/

/-- A JavaScript value as it flows through the handlers: `undefined`, `null`,
booleans, numbers (modelled as integers), strings, arrays and plain objects
(ordered key/value lists, as JS objects preserve insertion order). -/
inductive JSValue where
  | undefined : JSValue
  | null : JSValue
  | bool : Bool → JSValue
  | num : Int → JSValue
  | str : String → JSValue
  | arr : List JSValue → JSValue
  | obj : List (String × JSValue) → JSValue
deriving Repr

abbrev JSObj := List (String × JSValue)

/-- JavaScript falsiness: `undefined`, `null`, `false`, `0` and `""` are falsy;
every other value (including empty arrays and objects) is truthy. -/
def falsy : JSValue → Bool
  | .undefined => true
  | .null => true
  | .bool b => !b
  | .num n => n == 0
  | .str s => s == ""
  | .arr _ => false
  | .obj _ => false

def truthy (v : JSValue) : Bool := !falsy v

/-- JavaScript property access on an object: a missing key reads as `undefined`. -/
def getField (o : JSObj) (k : String) : JSValue :=
  match o with
  | [] => .undefined
  | (k', v) :: rest => if k' = k then v else getField rest k

/-- Property access on an arbitrary value (non-objects have no own properties). -/
def jsGet (v : JSValue) (k : String) : JSValue :=
  match v with
  | .obj o => getField o k
  | _ => .undefined

/-- JavaScript strict equality of a value against a string literal (`v === "s"`). -/
def jsEqStr (v : JSValue) (s : String) : Bool :=
  match v with
  | .str t => t == s
  | _ => false

/-! ## Decimal digits -/

def digitChar : Nat → Char
  | 0 => '0'
  | 1 => '1'
  | 2 => '2'
  | 3 => '3'
  | 4 => '4'
  | 5 => '5'
  | 6 => '6'
  | 7 => '7'
  | 8 => '8'
  | _ => '9'

def toDigit (c : Char) : Nat := c.toNat - 48

/-- Most-significant-first decimal digits of `n`, with an explicit recursion
budget so that the definition reduces definitionally on closed inputs. -/
def serNatAux : Nat → Nat → List Char
  | 0, _ => []
  | fuel + 1, n => if n = 0 then [] else serNatAux fuel (n / 10) ++ [digitChar (n % 10)]

def serNat (n : Nat) : List Char :=
  if 0 < n then serNatAux (n + 1) n else ['0']

/-- Decimal rendering of an integer, as JavaScript prints integral numbers. -/
def serInt (n : Int) : List Char :=
  if n < 0 then '-' :: serNat (-n).toNat else serNat n.toNat

/-- Numeric value of a most-significant-first digit string. -/
def digitsToNat (ds : List Char) : Nat :=
  ds.foldl (fun a c => 10 * a + toDigit c) 0

def intStr (n : Int) : String := String.mk (serInt n)

/-! ## JSON serialization (the model of `JSON.stringify` with no spacing) -/

/-- Escape a string body for JSON: quote and backslash get a backslash. -/
def escList : List Char → List Char
  | [] => []
  | c :: cs => if c = '"' || c = '\\' then '\\' :: c :: escList cs else c :: escList cs

mutual
def serVal : JSValue → List Char
  | .undefined => "null".data
  | .null => "null".data
  | .bool true => "true".data
  | .bool false => "false".data
  | .num n => serInt n
  | .str s => '"' :: escList s.data ++ ['"']
  | .arr xs => '[' :: serArr xs ++ [']']
  | .obj fs => '{' :: serObj fs ++ ['}']

def serArr : List JSValue → List Char
  | [] => []
  | [x] => serVal x
  | x :: y :: xs => serVal x ++ ',' :: serArr (y :: xs)

def serObj : List (String × JSValue) → List Char
  | [] => []
  | [(k, v)] => '"' :: escList k.data ++ '"' :: ':' :: serVal v
  | (k, v) :: m :: fs =>
    ('"' :: escList k.data ++ '"' :: ':' :: serVal v) ++ ',' :: serObj (m :: fs)
end

/-- The serialized JSON text of a value. -/
def stringify (x : JSValue) : String := String.mk (serVal x)

mutual
/-- A value is JSON-serializable when it holds no `undefined` anywhere. -/
def jsonOk : JSValue → Bool
  | .undefined => false
  | .null => true
  | .bool _ => true
  | .num _ => true
  | .str _ => true
  | .arr xs => jsonOkL xs
  | .obj fs => jsonOkO fs

def jsonOkL : List JSValue → Bool
  | [] => true
  | x :: xs => jsonOk x && jsonOkL xs

def jsonOkO : List (String × JSValue) → Bool
  | [] => true
  | m :: fs => jsonOk m.2 && jsonOkO fs
end

/-! ## JSON parsing (the model of `JSON.parse` on serializer output) -/

/-- Consume the body of a JSON string up to its closing quote, unescaping. -/
def parseStrChars : List Char → Option (List Char × List Char)
  | [] => none
  | c :: rest =>
    if c = '\\' then
      match rest with
      | [] => none
      | d :: rest2 =>
        match parseStrChars rest2 with
        | some (s, r) => some (d :: s, r)
        | none => none
    else if c = '"' then some ([], rest)
    else
      match parseStrChars rest with
      | some (s, r) => some (c :: s, r)
      | none => none

/-- Consume an expected literal character sequence. -/
def dropPfx : List Char → List Char → Option (List Char)
  | [], input => some input
  | _ :: _, [] => none
  | p :: ps, c :: cs => if c = p then dropPfx ps cs else none

/-- Consume a maximal nonempty run of decimal digits. -/
def parseNatChars (input : List Char) : Option (Nat × List Char) :=
  let ds := input.takeWhile Char.isDigit
  if ds.isEmpty then none
  else some (digitsToNat ds, input.dropWhile Char.isDigit)

mutual
def parseVal : Nat → List Char → Option (JSValue × List Char)
  | 0, _ => none
  | _ + 1, [] => none
  | fuel + 1, c :: rest =>
    if c = 'n' then
      match dropPfx ['u', 'l', 'l'] rest with
      | some r => some (.null, r)
      | none => none
    else if c = 't' then
      match dropPfx ['r', 'u', 'e'] rest with
      | some r => some (.bool true, r)
      | none => none
    else if c = 'f' then
      match dropPfx ['a', 'l', 's', 'e'] rest with
      | some r => some (.bool false, r)
      | none => none
    else if c = '"' then
      match parseStrChars rest with
      | some (s, r) => some (.str (String.mk s), r)
      | none => none
    else if c = '[' then
      match parseElems fuel rest with
      | some (xs, r) => some (.arr xs, r)
      | none => none
    else if c = '{' then
      match parseMembers fuel rest with
      | some (fs, r) => some (.obj fs, r)
      | none => none
    else if c = '-' then
      match parseNatChars rest with
      | some (n, r) => some (.num (-(n : Int)), r)
      | none => none
    else
      match parseNatChars (c :: rest) with
      | some (n, r) => some (.num (n : Int), r)
      | none => none

def parseElems : Nat → List Char → Option (List JSValue × List Char)
  | 0, _ => none
  | _ + 1, [] => none
  | fuel + 1, c :: rest =>
    if c = ']' then some ([], rest)
    else
      match parseVal fuel (c :: rest) with
      | some (x, r) =>
        match r with
        | ',' :: r2 =>
          (match parseElems fuel r2 with
           | some (xs, r3) => some (x :: xs, r3)
           | none => none)
        | ']' :: r2 => some ([x], r2)
        | _ => none
      | none => none

def parseMembers : Nat → List Char → Option (JSObj × List Char)
  | 0, _ => none
  | _ + 1, [] => none
  | fuel + 1, c :: rest =>
    if c = '}' then some ([], rest)
    else if c = '"' then
      match parseStrChars rest with
      | some (k, r1) =>
        match r1 with
        | ':' :: r2 =>
          (match parseVal fuel r2 with
           | some (v, r3) =>
             match r3 with
             | ',' :: r4 =>
               (match parseMembers fuel r4 with
                | some (fs, r5) => some ((String.mk k, v) :: fs, r5)
                | none => none)
             | '}' :: r4 => some ([(String.mk k, v)], r4)
             | _ => none
           | none => none)
        | _ => none
      | none => none
    else none
end

/-- Parse a complete JSON document (the model of `JSON.parse`). -/
def parseJson (s : String) : Option JSValue :=
  match parseVal (s.data.length + 1) s.data with
  | some (v, []) => some v
  | _ => none

/-- The remainder after a serialized number must not begin with a digit; in
serialized JSON it is empty or starts with a delimiter. -/
def notDigitStart : List Char → Bool
  | [] => true
  | c :: _ => !c.isDigit

/-! ## Protocol envelope and response formatter -/

inductive ContentBlock where
  | text : String → ContentBlock
deriving Repr

structure Envelope where
  content : List ContentBlock
deriving Repr

/-- Modelled from the spec: the source file of the response formatter
(`src/utils/response-formatter.ts`) is not included in the sources at hand;
the spec says `formatResponse` wraps an arbitrary successful JSON-compatible
value into the envelope containing a single text block holding the serialized
payload. -/
def formatResponse (x : JSValue) : Envelope :=
  ⟨[ContentBlock.text (stringify x)]⟩

/-- Extract the serialized payload back out of a content envelope. -/
def extractPayload (e : Envelope) : Option String :=
  match e.content with
  | [ContentBlock.text s] => some s
  | _ => none

/-! ## URI encoding (the model of `encodeURIComponent`) -/

def hexDigitChar : Nat → Char
  | 0 => '0'
  | 1 => '1'
  | 2 => '2'
  | 3 => '3'
  | 4 => '4'
  | 5 => '5'
  | 6 => '6'
  | 7 => '7'
  | 8 => '8'
  | 9 => '9'
  | 10 => 'A'
  | 11 => 'B'
  | 12 => 'C'
  | 13 => 'D'
  | 14 => 'E'
  | _ => 'F'

def percentByte (b : Nat) : List Char :=
  ['%', hexDigitChar (b / 16 % 16), hexDigitChar (b % 16)]

def utf8Bytes (c : Char) : List Nat :=
  let n := c.toNat
  if n < 128 then [n]
  else if n < 2048 then [192 + n / 64, 128 + n % 64]
  else if n < 65536 then [224 + n / 4096, 128 + n / 64 % 64, 128 + n % 64]
  else [240 + n / 262144, 128 + n / 4096 % 64, 128 + n / 64 % 64, 128 + n % 64]

/-- Characters `encodeURIComponent` leaves unescaped: alphanumerics and
`- _ . ! ~ * ' ( )` (39 is the code of the apostrophe). -/
def uriUnreserved (c : Char) : Bool :=
  c.isAlpha || c.isDigit || c = '-' || c = '_' || c = '.' || c = '!' ||
    c = '~' || c = '*' || c.toNat == 39 || c = '(' || c = ')'

def encodeURIComponent (s : String) : String :=
  String.mk (s.data.foldr
    (fun c acc =>
      (if uriUnreserved c then [c] else (utf8Bytes c).foldr (fun b a => percentByte b ++ a) []) ++ acc)
    [])

/-! ## JavaScript string conversion (the model of `String(v)`) -/

mutual
def jsToString : JSValue → String
  | .undefined => "undefined"
  | .null => "null"
  | .bool true => "true"
  | .bool false => "false"
  | .num n => intStr n
  | .str s => s
  | .arr xs => jsJoinArr xs
  | .obj _ => "[object Object]"

def jsJoinArr : List JSValue → String
  | [] => ""
  | [.undefined] => ""
  | [.null] => ""
  | [x] => jsToString x
  | .undefined :: y :: xs => "," ++ jsJoinArr (y :: xs)
  | .null :: y :: xs => "," ++ jsJoinArr (y :: xs)
  | x :: y :: xs => jsToString x ++ "," ++ jsJoinArr (y :: xs)
end

/-! ## Tool handlers (src/handlers/repository.ts) -/

/-- JSON-RPC error codes used by the MCP SDK. -/
def errInvalidRequest : Int := -32600
def errInvalidParams : Int := -32602
def errInternalError : Int := -32603

structure McpError where
  code : Int
  message : String
deriving Repr, DecidableEq

/-- A failure raised by a handler: either a deliberate protocol-level
`McpError`, or any other runtime failure (modelled by its description). -/
inductive HandlerError where
  | mcp : McpError → HandlerError
  | other : String → HandlerError
deriving Repr

/-- The parameters of a call-tool request: the tool name and the (possibly
absent) argument object. -/
structure ToolParams where
  name : String
  arguments : Option JSObj

def argsOf (p : ToolParams) : JSObj := p.arguments.getD []

/-- One outbound HTTP request to GitLab through the shared axios client. -/
structure HttpCall where
  method : String
  url : String
  params : JSObj
  body : JSValue
deriving Repr

/-- A handler takes the call parameters and the GitLab API (an oracle from a
request to the `data` of its response) and produces a result or failure,
together with the list of outbound GitLab calls it performed, in order. -/
abbrev ToolHandler := ToolParams → (HttpCall → JSValue) → Except HandlerError Envelope × List HttpCall

/-- The one GET issued by `listProjects`. -/
def listProjectsCall (args : JSObj) : HttpCall :=
  { method := "get"
    url := "/projects"
    params :=
      [("search", getField args "search"),
       ("owned", if jsEqTrue (getField args "owned") then .bool true else .undefined),
       ("membership", if jsEqTrue (getField args "membership") then .bool true else .undefined),
       ("per_page", if truthy (getField args "per_page") then getField args "per_page" else .num 20)]
    body := .undefined }
where
  /-- `v === true` -/
  jsEqTrue : JSValue → Bool
    | .bool true => true
    | _ => false

/-- List projects handler: no required arguments; `per_page` defaults to 20
via `per_page || 20`; `owned`/`membership` are forwarded only when `=== true`. -/
def listProjects : ToolHandler := fun p gl =>
  let call := listProjectsCall (argsOf p)
  (.ok (formatResponse (gl call)), [call])

def getProjectCall (project_id : JSValue) : HttpCall :=
  { method := "get"
    url := "/projects/" ++ encodeURIComponent (jsToString project_id)
    params := []
    body := .undefined }

/-- Get project details handler: throws invalid-params when `project_id` is
falsy, before any GitLab call. -/
def getProject : ToolHandler := fun p gl =>
  let project_id := getField (argsOf p) "project_id"
  if falsy project_id then
    (.error (.mcp ⟨errInvalidParams, "project_id is required"⟩), [])
  else
    let call := getProjectCall project_id
    (.ok (formatResponse (gl call)), [call])

def repositoryFileCall (project_id file_path ref : JSValue) : HttpCall :=
  { method := "get"
    url := "/projects/" ++ encodeURIComponent (jsToString project_id) ++
      "/repository/files/" ++ encodeURIComponent (jsToString file_path)
    params := [("ref", if truthy ref then ref else .str "main")]
    body := .undefined }

/-- Get repository file handler: requires `project_id` and `file_path`; the
`ref` query parameter is `ref || 'main'`. -/
def getRepositoryFile : ToolHandler := fun p gl =>
  let args := argsOf p
  let project_id := getField args "project_id"
  let file_path := getField args "file_path"
  if falsy project_id || falsy file_path then
    (.error (.mcp ⟨errInvalidParams, "project_id and file_path are required"⟩), [])
  else
    let call := repositoryFileCall project_id file_path (getField args "ref")
    (.ok (formatResponse (gl call)), [call])

def mrGetCall (project_id merge_request_iid : JSValue) : HttpCall :=
  { method := "get"
    url := "/projects/" ++ encodeURIComponent (jsToString project_id) ++
      "/merge_requests/" ++ jsToString merge_request_iid
    params := []
    body := .undefined }

def mrDiscussionPostCall (project_id merge_request_iid body position : JSValue) : HttpCall :=
  { method := "post"
    url := "/projects/" ++ encodeURIComponent (jsToString project_id) ++
      "/merge_requests/" ++ jsToString merge_request_iid ++ "/discussions"
    params := []
    body := .obj [("body", body), ("position", position)] }

/-- Simplified inline-discussion handler: requires six arguments (all checked
for JS falsiness), validates `line_type`, fetches the merge request to read
`diff_refs`, then posts the discussion. -/
def createMergeRequestDiscussionSimple : ToolHandler := fun p gl =>
  let args := argsOf p
  let project_id := getField args "project_id"
  let merge_request_iid := getField args "merge_request_iid"
  let body := getField args "body"
  let file_path := getField args "file_path"
  let line_number := getField args "line_number"
  let line_type := getField args "line_type"
  if falsy project_id || falsy merge_request_iid || falsy body ||
      falsy file_path || falsy line_number || falsy line_type then
    (.error (.mcp ⟨errInvalidParams,
      "project_id, merge_request_iid, body, file_path, line_number, and line_type are required"⟩), [])
  else if !jsEqStr line_type "new" && !jsEqStr line_type "old" then
    (.error (.mcp ⟨errInvalidParams, "line_type must be either \"new\" or \"old\""⟩), [])
  else
    let mrCall := mrGetCall project_id merge_request_iid
    let diffRefs := jsGet (gl mrCall) "diff_refs"
    if falsy diffRefs then
      (.error (.mcp ⟨errInternalError,
        "Could not retrieve diff_refs from merge request. The MR may not have any commits yet."⟩),
       [mrCall])
    else
      let position : JSValue := .obj
        [("base_sha", jsGet diffRefs "base_sha"),
         ("start_sha", jsGet diffRefs "start_sha"),
         ("head_sha", jsGet diffRefs "head_sha"),
         ("position_type", .str "text"),
         ("new_path", file_path),
         ("old_path", file_path),
         ("new_line", if jsEqStr line_type "new" then line_number else .null),
         ("old_line", if jsEqStr line_type "old" then line_number else .null)]
      let postCall := mrDiscussionPostCall project_id merge_request_iid body position
      (.ok (formatResponse (gl postCall)), [mrCall, postCall])

/-! ## Call-tool dispatch (setupRequestHandlers in src/index.ts) -/

/-- The call-tool request handler: look the tool name up in the registry; an
absent name raises `McpError(InvalidRequest, "Unknown tool: <name>")`; a
raised `McpError` passes through unchanged; any other failure is routed
through the error formatter (`handleApiError`, whose own source is out of
scope here and is therefore a parameter) with the fixed contextual message. -/
def callToolDispatch (registry : String → Option ToolHandler)
    (handleApiError : String → String → McpError)
    (gl : HttpCall → JSValue) (p : ToolParams) :
    Except McpError Envelope × List HttpCall :=
  match registry p.name with
  | none => (.error ⟨errInvalidRequest, "Unknown tool: " ++ p.name⟩, [])
  | some h =>
    match h p gl with
    | (.ok r, calls) => (.ok r, calls)
    | (.error (.mcp e), calls) => (.error e, calls)
    | (.error (.other s), calls) => (.error (handleApiError s "Error executing GitLab operation"), calls)

/-! ## Streamable-HTTP session transport (startHttp in src/index.ts) -/

/-- One streamable-HTTP transport instance: an instance tag (to tell
instances apart) and the session identifier it carries once generated. -/
structure Transport where
  tid : Nat
  sessionId : Option String
deriving Repr, DecidableEq

/-- The live-session table: `transports`, a record keyed by session id. -/
abbrev SessionTable := List (String × Transport)

def lookupT (table : SessionTable) (sid : String) : Option Transport :=
  match table with
  | [] => none
  | (k, t) :: rest => if k = sid then some t else lookupT rest sid

/-- `transports[id] = t`: overwrite in place, or append a new key. -/
def setEntry (table : SessionTable) (sid : String) (t : Transport) : SessionTable :=
  match table with
  | [] => [(sid, t)]
  | (k, u) :: rest => if k = sid then (k, t) :: rest else (k, u) :: setEntry rest sid t

/-- `delete transports[id]`. -/
def removeEntry (table : SessionTable) (sid : String) : SessionTable :=
  table.filter (fun e => e.1 != sid)

def tableKeys (table : SessionTable) : List String := table.map (·.1)

/-- An HTTP response from the `/mcp` or `/health` endpoints: a direct JSON
reply, a plain-text reply, or the exchange was handed to a transport
instance. -/
inductive EndpointReply where
  | json : Nat → JSValue → EndpointReply
  | text : Nat → String → EndpointReply
  | handled : Nat → EndpointReply
deriving Repr

/-- The fixed invalid-session reply body. -/
def invalidSessionBody : JSValue :=
  .obj [("jsonrpc", .str "2.0"),
        ("error", .obj [("code", .num (-32000)), ("message", .str "Invalid session")]),
        ("id", .null)]

/-- The body the POST handler's catch clause answers with when handling a
request threw (such as calling `handleRequest` on a non-transport). -/
def internalErrorBody : JSValue :=
  .obj [("jsonrpc", .str "2.0"),
        ("error", .obj [("code", .num (-32603)), ("message", .str "Internal server error")]),
        ("id", .null)]

/-- The member names a plain JS object inherits from `Object.prototype`:
reading `transports[k]` for these `k` yields a truthy non-transport value
even when no such session exists. -/
def protoKeys : List String :=
  ["constructor", "hasOwnProperty", "isPrototypeOf", "propertyIsEnumerable",
   "toLocaleString", "toString", "valueOf", "__proto__",
   "__defineGetter__", "__defineSetter__", "__lookupGetter__", "__lookupSetter__"]

/-- The result of the property read `transports[k]` on the plain session
object: an own entry (a live transport), a truthy member inherited from
`Object.prototype`, or `undefined`. -/
inductive PropRead where
  | transport : Transport → PropRead
  | inherited : PropRead
  | missing : PropRead
deriving Repr

def readProp (table : SessionTable) (k : String) : PropRead :=
  match lookupT table k with
  | some t => .transport t
  | none => if k ∈ protoKeys then .inherited else .missing

/-- The `onsessioninitialized` callback: register the id in the live table. -/
def onSessionInitialized (table : SessionTable) (id : String) (t : Transport) : SessionTable :=
  setEntry table id t

/-- The `onsessionclosed` callback: `delete transports[id]`. -/
def onSessionClosed (table : SessionTable) (id : String) : SessionTable :=
  removeEntry table id

/-- The `transport.onclose` hook: `delete transports[transport.sessionId]`
when the transport carries a session id. -/
def onTransportClose (table : SessionTable) (t : Transport) : SessionTable :=
  match t.sessionId with
  | some id => removeEntry table id
  | none => table

/-- `POST /mcp`, mirroring `if (sessionId && transports[sessionId]) reuse;
else if (!sessionId) initialize; else 400`. A truthy (nonempty) header whose
property read is an own transport is handed to it; a truthy header hitting an
`Object.prototype` member calls `handleRequest` on a non-transport, and the
thrown TypeError is caught and answered 500 with the internal-error body; a
truthy header reading `undefined` is answered 400 invalid session. A falsy
header (absent or the empty string) takes the initialization branch: a fresh
transport is built around the generator's output `genId` and, when the
handshake completes (`initOk`, decided by the SDK transport from the request
body), it is registered through `onsessioninitialized`. `freshTid` tags the
new transport instance. -/
def postMcp (table : SessionTable) (header : Option String)
    (genId : String) (initOk : Bool) (freshTid : Nat) : EndpointReply × SessionTable :=
  let sessionId := header.getD ""
  if sessionId ≠ "" then
    match readProp table sessionId with
    | .transport t => (.handled t.tid, table)
    | .inherited => (.json 500 internalErrorBody, table)
    | .missing => (.json 400 invalidSessionBody, table)
  else
    let t : Transport := ⟨freshTid, some genId⟩
    if initOk then (.handled freshTid, onSessionInitialized table genId t)
    else (.handled freshTid, table)

/-- `GET /mcp`: the header is read as a string (an absent header coerces to
the property key "undefined") and `transports[sessionId]` decides: an own
transport continues the stream, an inherited `Object.prototype` member throws
inside `handleRequest` and the catch answers a plain-text 500, and
`undefined` is answered 400 invalid session. -/
def getMcp (table : SessionTable) (header : Option String) : EndpointReply × SessionTable :=
  let key := header.getD "undefined"
  match readProp table key with
  | .transport t => (.handled t.tid, table)
  | .inherited => (.text 500 "Internal server error", table)
  | .missing => (.json 400 invalidSessionBody, table)

/-- `DELETE /mcp`: same property read as GET; a known session's transport
handles the request and closes the session, firing both `onsessionclosed`
and `onclose`; an inherited member yields the caught-TypeError plain-text
500; `undefined` is answered 400 invalid session. -/
def deleteMcp (table : SessionTable) (header : Option String) : EndpointReply × SessionTable :=
  let key := header.getD "undefined"
  match readProp table key with
  | .transport t => (.handled t.tid, onTransportClose (onSessionClosed table key) t)
  | .inherited => (.text 500 "Internal server error", table)
  | .missing => (.json 400 invalidSessionBody, table)

/-- `GET /health`: a 200 JSON reply carrying the live-session count; the
table is returned unchanged and the list of outbound GitLab calls is empty. -/
def healthEndpoint (table : SessionTable) : EndpointReply × SessionTable × List HttpCall :=
  (.json 200 (.obj
    [("status", .str "ok"),
     ("transport", .str "streamable-http"),
     ("activeSessions", .num (tableKeys table).length)]),
   table, [])

/-- Create `ids` sessions in order: each is a header-less POST whose
generator yields the next id and whose handshake completes. -/
def createSessions (ids : List String) (table : SessionTable) : SessionTable :=
  match ids with
  | [] => table
  | id :: rest => createSessions rest (postMcp table none id true (tableKeys table).length).2

/-- Close each listed session with a DELETE bearing its id. -/
def closeSessions (ids : List String) (table : SessionTable) : SessionTable :=
  match ids with
  | [] => table
  | id :: rest => closeSessions rest (deleteMcp table (some id)).2

/-! ## Session-table lemmas -/

theorem lookupT_removeEntry_self (table : SessionTable) (sid : String) :
    lookupT (removeEntry table sid) sid = none := by
  induction table with
  | nil => rfl
  | cons e rest ih =>
    obtain ⟨k, t⟩ := e
    by_cases h : k = sid
    · simpa [removeEntry, List.filter_cons, h] using ih
    · simpa [removeEntry, List.filter_cons, bne_iff_ne, h, lookupT] using ih

theorem removeEntry_removeEntry (table : SessionTable) (sid : String) :
    removeEntry (removeEntry table sid) sid = removeEntry table sid := by
  simp [removeEntry, List.filter_filter]

theorem lookupT_setEntry_self (table : SessionTable) (sid : String) (t : Transport) :
    lookupT (setEntry table sid t) sid = some t := by
  induction table with
  | nil => simp [setEntry, lookupT]
  | cons e rest ih =>
    obtain ⟨k, u⟩ := e
    by_cases h : k = sid
    · simp [setEntry, h, lookupT]
    · simpa [setEntry, h, lookupT] using ih

theorem tableKeys_setEntry_fresh (table : SessionTable) (sid : String) (t : Transport)
    (h : lookupT table sid = none) :
    tableKeys (setEntry table sid t) = tableKeys table ++ [sid] := by
  induction table with
  | nil => simp [setEntry, tableKeys]
  | cons e rest ih =>
    obtain ⟨k, u⟩ := e
    by_cases he : k = sid
    · simp [lookupT, he] at h
    · rw [lookupT, if_neg he] at h
      have hrest := ih h
      simp [setEntry, he, tableKeys] at hrest ⊢
      exact hrest

/-! ## Claims about the HTTP session transport -/

/-- Claim C1 counterexample: the original claim asserts 400 with the
invalid-session body and an unchanged table for EVERY request bearing a
header absent from the live table, but the program does otherwise at two
kinds of header. With `"abc"` the only live session: the header
`"constructor"` is not in the table, yet `transports["constructor"]` is the
truthy inherited `Object.prototype` member, so the reuse branch runs,
`handleRequest` throws, and POST answers 500 with the internal-error body
(GET answers a plain-text 500) — not the claimed 400; and a POST bearing an
empty header is falsy for `else if (!sessionId)`, so it takes the
initialization branch and (the handshake completing) creates a session,
mutating the table. -/
theorem mcp_unknown_session_rejected_cex :
    lookupT [("abc", ⟨0, some "abc"⟩)] "constructor" = none ∧
    (postMcp [("abc", ⟨0, some "abc"⟩)] (some "constructor") "g" true 1).1 =
      .json 500 internalErrorBody ∧
    (getMcp [("abc", ⟨0, some "abc"⟩)] (some "constructor")).1 =
      .text 500 "Internal server error" ∧
    lookupT [("abc", ⟨0, some "abc"⟩)] "" = none ∧
    postMcp [("abc", ⟨0, some "abc"⟩)] (some "") "xyz" true 1 =
      (.handled 1, [("abc", ⟨0, some "abc"⟩), ("xyz", ⟨1, some "xyz"⟩)]) :=
  ⟨rfl, rfl, rfl, rfl, rfl⟩

/-- Claim C1 (amended): every request (POST, GET or DELETE) on `/mcp`
bearing a nonempty session identifier header that is neither an
`Object.prototype` member name nor present in the live session table is
answered 400 with exactly the body
`\x7b"jsonrpc":"2.0","error":\x7b"code":-32000,"message":"Invalid session"\x7d,"id":null\x7d`,
and the live session table is returned unchanged. A nonempty header naming
an `Object.prototype` member is instead answered 500 (the JSON internal-error
body on POST, plain text on GET and DELETE), still with the table unchanged. -/
theorem mcp_unknown_session_rejected (table : SessionTable) (sid genId : String)
    (initOk : Bool) (freshTid : Nat) (hne : sid ≠ "") (h : lookupT table sid = none) :
    (sid ∉ protoKeys →
      postMcp table (some sid) genId initOk freshTid = (.json 400 invalidSessionBody, table) ∧
      getMcp table (some sid) = (.json 400 invalidSessionBody, table) ∧
      deleteMcp table (some sid) = (.json 400 invalidSessionBody, table)) ∧
    (sid ∈ protoKeys →
      postMcp table (some sid) genId initOk freshTid = (.json 500 internalErrorBody, table) ∧
      getMcp table (some sid) = (.text 500 "Internal server error", table) ∧
      deleteMcp table (some sid) = (.text 500 "Internal server error", table)) ∧
    stringify invalidSessionBody =
      "\x7b\"jsonrpc\":\"2.0\",\"error\":\x7b\"code\":-32000,\"message\":\"Invalid session\"\x7d,\"id\":null\x7d" := by
  refine ⟨fun hp => ⟨?_, ?_, ?_⟩, fun hp => ⟨?_, ?_, ?_⟩, rfl⟩ <;>
    simp [postMcp, getMcp, deleteMcp, readProp, h, hp, hne]

theorem mcp_unknown_session_rejected_witness :
    ("nope" : String) ≠ "" ∧
    lookupT [("abc", ⟨0, some "abc"⟩)] "nope" = none ∧
    ("nope" : String) ∉ protoKeys ∧
    postMcp [("abc", ⟨0, some "abc"⟩)] (some "nope") "g" true 1 =
      (.json 400 invalidSessionBody, [("abc", ⟨0, some "abc"⟩)]) :=
  ⟨by decide, rfl, by decide,
    ((mcp_unknown_session_rejected [("abc", ⟨0, some "abc"⟩)] "nope" "g" true 1
      (by decide) rfl).1 (by decide)).1⟩

/-- Claim C2 counterexample: the original claim asserts that EVERY
subsequent request bearing a closed identifier is rejected as an invalid
session, but the generator (`Math.random().toString(36).substring(7)`) can
emit the empty string and prototype-member-shaped names. After closing the
session with identifier `""` (both triggers firing, removing it exactly
once), a POST bearing the empty header is falsy for `else if (!sessionId)`
and re-enters the initialization branch — it is handled and creates a fresh
session instead of being rejected; and after closing a session named
`"constructor"`, a GET bearing that identifier hits the inherited
`Object.prototype` member and is answered a plain-text 500, not the
invalid-session 400. -/
theorem mcp_session_close_cex :
    (Transport.mk 0 (some "")).sessionId = some "" ∧
    onTransportClose (onSessionClosed [("", ⟨0, some ""⟩)] "") ⟨0, some ""⟩ = [] ∧
    lookupT ([] : SessionTable) "" = none ∧
    postMcp ([] : SessionTable) (some "") "g" true 1 = (.handled 1, [("g", ⟨1, some "g"⟩)]) ∧
    removeEntry [("constructor", ⟨2, some "constructor"⟩)] "constructor" = ([] : SessionTable) ∧
    (getMcp ([] : SessionTable) (some "constructor")).1 = .text 500 "Internal server error" :=
  ⟨rfl, rfl, rfl, rfl, rfl, rfl⟩

/-- Claim C2 (amended): closing an active session removes its identifier
from the live table exactly once even when both closure triggers fire (the
DELETE-driven `onsessionclosed` callback and the transport's autonomous
`onclose` hook): firing both, in either order, gives the same table as
removing once, and the identifier then resolves to nothing. Every subsequent
request bearing the closed identifier is rejected as an invalid session with
the table unchanged — provided the identifier is nonempty and not an
`Object.prototype` member name (a closed empty identifier re-enters the
initialization branch on POST, and a closed prototype-member name is
answered 500). -/
theorem mcp_session_close_exactly_once (table : SessionTable) (sid : String) (t : Transport)
    (genId : String) (initOk : Bool) (freshTid : Nat) (ht : t.sessionId = some sid) :
    onTransportClose (onSessionClosed table sid) t = removeEntry table sid ∧
    onSessionClosed (onTransportClose table t) sid = removeEntry table sid ∧
    lookupT (removeEntry table sid) sid = none ∧
    (sid ≠ "" → sid ∉ protoKeys →
      postMcp (removeEntry table sid) (some sid) genId initOk freshTid =
        (.json 400 invalidSessionBody, removeEntry table sid) ∧
      getMcp (removeEntry table sid) (some sid) =
        (.json 400 invalidSessionBody, removeEntry table sid) ∧
      deleteMcp (removeEntry table sid) (some sid) =
        (.json 400 invalidSessionBody, removeEntry table sid)) := by
  refine ⟨?_, ?_, lookupT_removeEntry_self table sid, fun hne hp => ⟨?_, ?_, ?_⟩⟩
  · simp [onTransportClose, onSessionClosed, ht, removeEntry_removeEntry]
  · simp [onSessionClosed, onTransportClose, ht, removeEntry_removeEntry]
  · simp [postMcp, readProp, lookupT_removeEntry_self, hne, hp]
  · simp [getMcp, readProp, lookupT_removeEntry_self, hne, hp]
  · simp [deleteMcp, readProp, lookupT_removeEntry_self, hne, hp]

theorem mcp_session_close_exactly_once_witness :
    (Transport.mk 0 (some "abc")).sessionId = some "abc" ∧
    onTransportClose (onSessionClosed [("abc", ⟨0, some "abc"⟩)] "abc") ⟨0, some "abc"⟩ =
      removeEntry [("abc", ⟨0, some "abc"⟩)] "abc" :=
  ⟨rfl, (mcp_session_close_exactly_once [("abc", ⟨0, some "abc"⟩)] "abc" ⟨0, some "abc"⟩
    "g" true 1 rfl).1⟩

/-- Claim C3 counterexample: the session-id generator performs no freshness
check against the live table. With `"abc"` already live, a header-less POST
whose generator yields `"abc"` is not rejected: it is handled and, upon
handshake completion, registration silently overwrites the live entry, so
the generated identifier was not distinct from every live identifier. -/
theorem mcp_session_id_collision_cex :
    lookupT [("abc", ⟨0, some "abc"⟩)] "abc" = some ⟨0, some "abc"⟩ ∧
    (postMcp [("abc", ⟨0, some "abc"⟩)] none "abc" true 1).1 = .handled 1 ∧
    (postMcp [("abc", ⟨0, some "abc"⟩)] none "abc" true 1).2 = [("abc", ⟨1, some "abc"⟩)] :=
  ⟨rfl, rfl, rfl⟩

/-- Claim C3 (amended): a POST on `/mcp` with no session header constructs a
new transport whose session identifier is exactly the generator's output,
with no uniqueness check against the live table (a colliding output silently
overwrites the live entry). The identifier becomes resolvable only upon
handshake completion: without it the table is unchanged, and with it the
identifier is registered; when the generator's output happens to be fresh,
it is appended to the live identifiers and resolves to the new transport. -/
theorem mcp_session_init_registration (table : SessionTable) (genId : String) (freshTid : Nat) :
    (postMcp table none genId false freshTid).2 = table ∧
    (postMcp table none genId true freshTid).2 = setEntry table genId ⟨freshTid, some genId⟩ ∧
    (lookupT table genId = none →
      tableKeys (setEntry table genId ⟨freshTid, some genId⟩) = tableKeys table ++ [genId] ∧
      lookupT (setEntry table genId ⟨freshTid, some genId⟩) genId = some ⟨freshTid, some genId⟩) := by
  refine ⟨rfl, rfl, fun h => ⟨tableKeys_setEntry_fresh table genId _ h, lookupT_setEntry_self table genId _⟩⟩

theorem mcp_session_init_registration_witness :
    lookupT [("abc", ⟨0, some "abc"⟩)] "xyz" = none ∧
    tableKeys (setEntry [("abc", ⟨0, some "abc"⟩)] "xyz" ⟨1, some "xyz"⟩) =
      tableKeys [("abc", ⟨0, some "abc"⟩)] ++ ["xyz"] :=
  ⟨rfl, ((mcp_session_init_registration [("abc", ⟨0, some "abc"⟩)] "xyz" 1).2.2 rfl).1⟩

/-! ## Claims about the tool handlers and dispatch -/

/-- Claim C5: a call-tool invocation whose arguments omit a declared-required
argument returns an invalid-params protocol error whose message names the
missing field, and performs no outbound GitLab call. In particular
`get_project` without `project_id` errors with a message naming `project_id`
and zero GitLab calls, and the simplified-discussion handler behaves the same
for each of its six required arguments. -/
theorem missing_required_argument_rejected (p : ToolParams) (gl : HttpCall → JSValue) :
    (getField (argsOf p) "project_id" = .undefined →
      getProject p gl = (.error (.mcp ⟨errInvalidParams, "project_id is required"⟩), [])) ∧
    (∀ f ∈ ["project_id", "merge_request_iid", "body", "file_path", "line_number", "line_type"],
      getField (argsOf p) f = .undefined →
      createMergeRequestDiscussionSimple p gl =
        (.error (.mcp ⟨errInvalidParams,
          "project_id, merge_request_iid, body, file_path, line_number, and line_type are required"⟩),
         [])) := by
  constructor
  · intro h
    simp [getProject, h, falsy]
  · intro f hf h
    fin_cases hf <;> simp [createMergeRequestDiscussionSimple, h, falsy]

theorem missing_required_argument_rejected_witness :
    getField (argsOf ⟨"get_project", some []⟩) "project_id" = .undefined ∧
    getProject ⟨"get_project", some []⟩ (fun _ => .null) =
      (.error (.mcp ⟨errInvalidParams, "project_id is required"⟩), []) :=
  ⟨rfl, (missing_required_argument_rejected ⟨"get_project", some []⟩ (fun _ => .null)).1 rfl⟩

/-- Claim C6: a call-tool request whose name is not in the tool registry is
answered with an invalid-request protocol error whose message carries the
requested tool name; no handler runs, the outbound GitLab call list is empty,
and the dispatch returns this error as a value (the process keeps serving). -/
theorem unknown_tool_rejected (registry : String → Option ToolHandler)
    (hae : String → String → McpError) (gl : HttpCall → JSValue) (p : ToolParams)
    (h : registry p.name = none) :
    callToolDispatch registry hae gl p =
      (.error ⟨errInvalidRequest, "Unknown tool: " ++ p.name⟩, []) := by
  simp [callToolDispatch, h]

theorem unknown_tool_rejected_witness :
    callToolDispatch (fun _ => none) (fun _ _ => ⟨0, ""⟩) (fun _ => .null) ⟨"frobnicate", none⟩ =
      (.error ⟨errInvalidRequest, "Unknown tool: " ++ "frobnicate"⟩, []) :=
  unknown_tool_rejected (fun _ => none) (fun _ _ => ⟨0, ""⟩) (fun _ => .null) ⟨"frobnicate", none⟩ rfl

/-- Claim C7: when the resolved handler fails with a protocol-level
`McpError`, the dispatch propagates that error unchanged (not re-wrapped);
when it fails with any other error, the failure is routed through the error
formatter with the fixed contextual message
"Error executing GitLab operation" before propagating. -/
theorem handler_failure_routing (registry : String → Option ToolHandler)
    (hae : String → String → McpError) (gl : HttpCall → JSValue) (p : ToolParams)
    (h : ToolHandler) (hreg : registry p.name = some h) :
    (∀ e calls, h p gl = (.error (.mcp e), calls) →
      callToolDispatch registry hae gl p = (.error e, calls)) ∧
    (∀ s calls, h p gl = (.error (.other s), calls) →
      callToolDispatch registry hae gl p =
        (.error (hae s "Error executing GitLab operation"), calls)) := by
  constructor <;> intro a calls hh <;> simp [callToolDispatch, hreg, hh]

theorem handler_failure_routing_witness :
    callToolDispatch (fun _ => some (fun _ _ => (.error (.mcp ⟨5, "boom"⟩), [])))
        (fun s c => ⟨-1, c ++ ": " ++ s⟩) (fun _ => .null) ⟨"t", none⟩ =
      (.error ⟨5, "boom"⟩, []) ∧
    callToolDispatch (fun _ => some (fun _ _ => (.error (.other "net"), [])))
        (fun s c => ⟨-1, c ++ ": " ++ s⟩) (fun _ => .null) ⟨"t", none⟩ =
      (.error ⟨-1, "Error executing GitLab operation" ++ ": " ++ "net"⟩, []) :=
  ⟨(handler_failure_routing (fun _ => some (fun _ _ => (.error (.mcp ⟨5, "boom"⟩), [])))
      (fun s c => ⟨-1, c ++ ": " ++ s⟩) (fun _ => .null) ⟨"t", none⟩ _ rfl).1 ⟨5, "boom"⟩ [] rfl,
   (handler_failure_routing (fun _ => some (fun _ _ => (.error (.other "net"), [])))
      (fun s c => ⟨-1, c ++ ": " ++ s⟩) (fun _ => .null) ⟨"t", none⟩ _ rfl).2 "net" [] rfl⟩

/-- Claim C9: a required argument whose supplied value is JS-falsy (0, the
empty string, or false) is treated exactly as if it were absent:
`create_merge_request_discussion_simple` with a falsy `line_number` (such as
the number 0) returns the invalid-params error naming `line_number` among the
required fields with zero GitLab calls, and `list_projects` with a falsy
`per_page` (such as the number 0) sends `per_page` 20 to GitLab. -/
theorem falsy_required_argument_treated_absent (p : ToolParams) (gl : HttpCall → JSValue) :
    (∀ v, falsy v = true → getField (argsOf p) "line_number" = v →
      createMergeRequestDiscussionSimple p gl =
        (.error (.mcp ⟨errInvalidParams,
          "project_id, merge_request_iid, body, file_path, line_number, and line_type are required"⟩),
         [])) ∧
    (∀ v, falsy v = true → getField (argsOf p) "per_page" = v →
      listProjects p gl =
        (.ok (formatResponse (gl (listProjectsCall (argsOf p)))), [listProjectsCall (argsOf p)]) ∧
      getField (listProjectsCall (argsOf p)).params "per_page" = JSValue.num 20) := by
  constructor
  · intro v hv h
    simp [createMergeRequestDiscussionSimple, h, hv]
  · intro v hv h
    refine ⟨rfl, ?_⟩
    simp [listProjectsCall, getField, truthy, h, hv]

theorem falsy_required_argument_treated_absent_witness :
    falsy (JSValue.num 0) = true ∧
    getField (argsOf ⟨"list_projects", some [("per_page", JSValue.num 0)]⟩) "per_page" =
      JSValue.num 0 ∧
    getField (listProjectsCall (argsOf ⟨"list_projects", some [("per_page", JSValue.num 0)]⟩)).params
      "per_page" = JSValue.num 20 :=
  ⟨rfl, rfl,
    ((falsy_required_argument_treated_absent ⟨"list_projects", some [("per_page", JSValue.num 0)]⟩
      (fun _ => .null)).2 (JSValue.num 0) rfl rfl).2⟩

/-- Claim C10: a `get_repository_file` invocation with `project_id` and
`file_path` present and a falsy or absent `ref` issues its single GitLab
request with the literal ref value "main" — a constant independent of the
project and of anything GitLab reports, hence not the project's configured
default branch. -/
theorem repository_file_ref_defaults_to_main (p : ToolParams) (gl : HttpCall → JSValue)
    (hpid : truthy (getField (argsOf p) "project_id") = true)
    (hfp : truthy (getField (argsOf p) "file_path") = true)
    (href : falsy (getField (argsOf p) "ref") = true) :
    getRepositoryFile p gl =
      (.ok (formatResponse (gl (repositoryFileCall (getField (argsOf p) "project_id")
          (getField (argsOf p) "file_path") (getField (argsOf p) "ref")))),
       [repositoryFileCall (getField (argsOf p) "project_id") (getField (argsOf p) "file_path")
          (getField (argsOf p) "ref")]) ∧
    (repositoryFileCall (getField (argsOf p) "project_id") (getField (argsOf p) "file_path")
        (getField (argsOf p) "ref")).params = [("ref", JSValue.str "main")] := by
  have h1 : falsy (getField (argsOf p) "project_id") = false := by
    simpa [truthy] using hpid
  have h2 : falsy (getField (argsOf p) "file_path") = false := by
    simpa [truthy] using hfp
  constructor
  · simp [getRepositoryFile, h1, h2]
  · simp [repositoryFileCall, truthy, href]

theorem repository_file_ref_defaults_to_main_witness :
    truthy (getField (argsOf ⟨"get_repository_file",
      some [("project_id", JSValue.num 42), ("file_path", JSValue.str "README.md")]⟩)
      "project_id") = true ∧
    (repositoryFileCall (JSValue.num 42) (JSValue.str "README.md") JSValue.undefined).params =
      [("ref", JSValue.str "main")] :=
  ⟨rfl, (repository_file_ref_defaults_to_main ⟨"get_repository_file",
    some [("project_id", JSValue.num 42), ("file_path", JSValue.str "README.md")]⟩
    (fun _ => .null) rfl rfl rfl).2⟩

/-! ## Lemmas for the health-endpoint count -/

theorem lookupT_mem (table : SessionTable) (sid : String) (t : Transport)
    (h : lookupT table sid = some t) : (sid, t) ∈ table := by
  induction table with
  | nil => simp [lookupT] at h
  | cons e rest ih =>
    obtain ⟨k, u⟩ := e
    by_cases hk : k = sid
    · rw [lookupT, if_pos hk] at h
      cases h
      subst hk
      exact List.mem_cons_self _ _
    · rw [lookupT, if_neg hk] at h
      exact List.mem_cons_of_mem _ (ih h)

theorem removeEntry_absent (table : SessionTable) (sid : String)
    (h : lookupT table sid = none) : removeEntry table sid = table := by
  induction table with
  | nil => rfl
  | cons e rest ih =>
    obtain ⟨k, u⟩ := e
    by_cases hk : k = sid
    · rw [lookupT, if_pos hk] at h
      cases h
    · rw [lookupT, if_neg hk] at h
      simp [removeEntry, List.filter_cons, bne_iff_ne, hk] at ih ⊢
      exact ih h

theorem deleteMcp_removes (table : SessionTable) (sid : String)
    (hwf : ∀ e ∈ table, e.2.sessionId = some e.1) :
    (deleteMcp table (some sid)).2 = removeEntry table sid := by
  rcases h : lookupT table sid with - | t
  · have habs := removeEntry_absent table sid h
    by_cases hp : sid ∈ protoKeys
    · simp [deleteMcp, readProp, h, hp, habs]
    · simp [deleteMcp, readProp, h, hp, habs]
  · have hts : t.sessionId = some sid := hwf (sid, t) (lookupT_mem table sid t h)
    simp [deleteMcp, readProp, h, onSessionClosed, onTransportClose, hts,
      removeEntry_removeEntry]

theorem wf_removeEntry (table : SessionTable) (sid : String)
    (hwf : ∀ e ∈ table, e.2.sessionId = some e.1) :
    ∀ e ∈ removeEntry table sid, e.2.sessionId = some e.1 := by
  intro e he
  exact hwf e (List.mem_of_mem_filter he)

theorem closeSessions_filter (ids : List String) :
    ∀ table : SessionTable, (∀ e ∈ table, e.2.sessionId = some e.1) →
    closeSessions ids table = table.filter (fun e => !decide (e.1 ∈ ids)) := by
  induction ids with
  | nil => intro table _; simp [closeSessions]
  | cons c cs ih =>
    intro table hwf
    rw [closeSessions, deleteMcp_removes table c hwf,
      ih (removeEntry table c) (wf_removeEntry table c hwf)]
    rw [removeEntry, List.filter_filter]
    refine List.filter_congr ?_
    intro e _
    by_cases h1 : e.1 = c <;> by_cases h2 : e.1 ∈ cs <;> simp [h1, h2]

theorem tableKeys_filter (table : SessionTable) (p : String → Bool) :
    tableKeys (table.filter (fun e => p e.1)) = (tableKeys table).filter p := by
  induction table with
  | nil => rfl
  | cons e rest ih =>
    rcases hp : p e.1 with - | -
    · simpa [tableKeys, List.filter_cons, hp] using ih
    · simpa [tableKeys, List.filter_cons, hp] using ih

theorem lookupT_setEntry_ne (table : SessionTable) (sid i : String) (t : Transport)
    (h : i ≠ sid) : lookupT (setEntry table sid t) i = lookupT table i := by
  induction table with
  | nil =>
    simp only [setEntry, lookupT]
    rw [if_neg (fun hh : sid = i => h hh.symm)]
  | cons e rest ih =>
    obtain ⟨k, u⟩ := e
    by_cases hk : k = sid
    · rw [setEntry, if_pos hk]
      have hne : ¬ k = i := fun hki => h (hki.symm.trans hk)
      simp [lookupT, hne]
    · simp [setEntry, hk, lookupT, ih]

theorem wf_setEntry (table : SessionTable) (sid : String) (t : Transport)
    (hwf : ∀ e ∈ table, e.2.sessionId = some e.1) (ht : t.sessionId = some sid) :
    ∀ e ∈ setEntry table sid t, e.2.sessionId = some e.1 := by
  induction table with
  | nil =>
    intro e he
    simp [setEntry] at he
    simp [he, ht]
  | cons f rest ih =>
    obtain ⟨k, u⟩ := f
    intro e he
    by_cases hk : k = sid
    · rw [setEntry, if_pos hk] at he
      rcases List.mem_cons.mp he with h | h
      · subst hk; simp [h, ht]
      · exact hwf e (List.mem_cons_of_mem _ h)
    · rw [setEntry, if_neg hk] at he
      rcases List.mem_cons.mp he with h | h
      · exact hwf e (by simp [h])
      · exact ih (fun e' he' => hwf e' (List.mem_cons_of_mem _ he')) e h

theorem createSessions_keys (ids : List String) :
    ∀ table : SessionTable, ids.Nodup → (∀ i ∈ ids, lookupT table i = none) →
    (∀ e ∈ table, e.2.sessionId = some e.1) →
    tableKeys (createSessions ids table) = tableKeys table ++ ids ∧
    (∀ e ∈ createSessions ids table, e.2.sessionId = some e.1) := by
  induction ids with
  | nil => intro table _ _ hwf; exact ⟨by simp [createSessions], hwf⟩
  | cons c cs ih =>
    intro table hnd hfresh hwf
    have hstep : (postMcp table none c true (tableKeys table).length).2 =
        setEntry table c ⟨(tableKeys table).length, some c⟩ := rfl
    rw [createSessions, hstep]
    have hcfresh : lookupT table c = none := hfresh c (List.mem_cons_self _ _)
    have hfresh' : ∀ i ∈ cs, lookupT (setEntry table c ⟨(tableKeys table).length, some c⟩) i = none := by
      intro i hi
      have hne : i ≠ c := by
        rintro rfl
        exact (List.nodup_cons.mp hnd).1 hi
      rw [lookupT_setEntry_ne table c i _ hne]
      exact hfresh i (List.mem_cons_of_mem _ hi)
    have hwf' := wf_setEntry table c ⟨(tableKeys table).length, some c⟩ hwf rfl
    obtain ⟨hkeys, hwfout⟩ := ih (setEntry table c ⟨(tableKeys table).length, some c⟩)
      (List.nodup_cons.mp hnd).2 hfresh' hwf'
    refine ⟨?_, hwfout⟩
    rw [hkeys, tableKeys_setEntry_fresh table c _ hcfresh]
    simp

theorem length_filter_ne (ids : List String) (c : String) (hnd : ids.Nodup) (hc : c ∈ ids) :
    (ids.filter (fun s => s != c)).length + 1 = ids.length := by
  induction ids with
  | nil => cases hc
  | cons a rest ih =>
    by_cases hac : a = c
    · have hcrest : c ∉ rest := by
        rw [← hac]
        exact (List.nodup_cons.mp hnd).1
      have hfr : rest.filter (fun s => s != c) = rest :=
        List.filter_eq_self.mpr (fun s hs => bne_iff_ne.mpr (fun hsc => hcrest (hsc ▸ hs)))
      simp [List.filter_cons, hac, hfr]
    · have hcr : c ∈ rest := by
        rcases List.mem_cons.mp hc with h | h
        · exact absurd h.symm hac
        · exact h
      have hrec := ih (List.nodup_cons.mp hnd).2 hcr
      simp [List.filter_cons, bne_iff_ne, hac]
      omega

theorem length_filter_not_mem (closed : List String) :
    ∀ ids : List String, closed.Nodup → ids.Nodup → (∀ s ∈ closed, s ∈ ids) →
    (ids.filter (fun s => !decide (s ∈ closed))).length = ids.length - closed.length := by
  induction closed with
  | nil => intro ids _ _ _; simp
  | cons c cs ih =>
    intro ids hcnd hind hsub
    have hsplit : ids.filter (fun s => !decide (s ∈ c :: cs)) =
        (ids.filter (fun s => s != c)).filter (fun s => !decide (s ∈ cs)) := by
      rw [List.filter_filter]
      refine (List.filter_congr ?_).symm
      intro s _
      by_cases h1 : s = c <;> by_cases h2 : s ∈ cs <;> simp [h1, h2]
    rw [hsplit]
    have hc : c ∈ ids := hsub c (List.mem_cons_self _ _)
    have hlen := length_filter_ne ids c hind hc
    have hsub' : ∀ s ∈ cs, s ∈ ids.filter (fun s => s != c) := by
      intro s hs
      refine List.mem_filter.mpr ⟨hsub s (List.mem_cons_of_mem _ hs), ?_⟩
      exact bne_iff_ne.mpr (fun hsc => (List.nodup_cons.mp hcnd).1 (hsc ▸ hs))
    have := ih (ids.filter (fun s => s != c)) (List.nodup_cons.mp hcnd).2
      (hind.filter _) hsub'
    rw [this]
    simp only [List.length_cons]
    omega

/-- Claim C4: `GET /health` answers 200 with body
`\x7b"status":"ok","transport":"streamable-http","activeSessions": n\x7d` where `n` is
the number of identifiers currently in the live session table, leaves the
table unchanged and performs no GitLab call; and after creating N sessions
and closing M ≤ N of them (M distinct identifiers among the N created), the
reported count is N − M. -/
theorem health_reports_live_session_count (ids closed : List String)
    (hnodup : ids.Nodup) (hcnodup : closed.Nodup) (hsub : ∀ s ∈ closed, s ∈ ids) :
    (∀ table : SessionTable,
      healthEndpoint table =
        (.json 200 (.obj
          [("status", .str "ok"), ("transport", .str "streamable-http"),
           ("activeSessions", .num (tableKeys table).length)]), table, [])) ∧
    (tableKeys (closeSessions closed (createSessions ids []))).length =
      ids.length - closed.length := by
  refine ⟨fun table => rfl, ?_⟩
  obtain ⟨hkeys, hwf⟩ := createSessions_keys ids [] hnodup (fun i _ => rfl)
    (by intro e he; cases he)
  rw [closeSessions_filter closed _ hwf]
  have hkf : tableKeys ((createSessions ids []).filter (fun e => !decide (e.1 ∈ closed))) =
      (tableKeys (createSessions ids [])).filter (fun s => !decide (s ∈ closed)) :=
    tableKeys_filter (createSessions ids []) (fun s => !decide (s ∈ closed))
  rw [hkf, hkeys]
  simpa [tableKeys] using length_filter_not_mem closed ids hcnodup hnodup hsub

theorem health_reports_live_session_count_witness :
    (["a", "b", "c"] : List String).Nodup ∧ (["b"] : List String).Nodup ∧
    (∀ s ∈ (["b"] : List String), s ∈ (["a", "b", "c"] : List String)) ∧
    (tableKeys (closeSessions ["b"] (createSessions ["a", "b", "c"] []))).length =
      (["a", "b", "c"] : List String).length - (["b"] : List String).length :=
  ⟨by decide, by decide, by decide,
   (health_reports_live_session_count ["a", "b", "c"] ["b"]
     (by decide) (by decide) (by decide)).2⟩

/-! ## Lemmas for the JSON round trip -/

theorem isDigit_digitChar (d : Nat) (h : d < 10) : (digitChar d).isDigit = true := by
  interval_cases d <;> decide

theorem toDigit_digitChar (d : Nat) (h : d < 10) : toDigit (digitChar d) = d := by
  interval_cases d <;> decide

theorem serNatAux_digits (fuel : Nat) : ∀ n, ∀ c ∈ serNatAux fuel n, c.isDigit = true := by
  induction fuel with
  | zero => intro n c hc; cases hc
  | succ f ih =>
    intro n c hc
    rw [serNatAux] at hc
    by_cases h : n = 0
    · simp [h] at hc
    · rw [if_neg h] at hc
      rcases List.mem_append.mp hc with h1 | h1
      · exact ih (n / 10) c h1
      · simp at h1
        subst h1
        exact isDigit_digitChar _ (Nat.mod_lt _ (by norm_num))

theorem serNatAux_correct (fuel : Nat) : ∀ n, n < 10 ^ fuel →
    digitsToNat (serNatAux fuel n) = n := by
  induction fuel with
  | zero =>
    intro n h
    interval_cases n
    rfl
  | succ f ih =>
    intro n h
    rw [serNatAux]
    by_cases hn : n = 0
    · simp [hn, digitsToNat]
    · rw [if_neg hn]
      have hdiv : n / 10 < 10 ^ f := by
        rw [Nat.div_lt_iff_lt_mul (by norm_num)]
        calc n < 10 ^ (f + 1) := h
        _ = 10 ^ f * 10 := by ring
      rw [digitsToNat, List.foldl_append]
      simp only [List.foldl_cons, List.foldl_nil]
      rw [← digitsToNat, ih (n / 10) hdiv, toDigit_digitChar _ (Nat.mod_lt _ (by norm_num))]
      omega

theorem serNat_digits (n : Nat) : ∀ c ∈ serNat n, c.isDigit = true := by
  intro c hc
  rw [serNat] at hc
  by_cases h : 0 < n
  · rw [if_pos h] at hc
    exact serNatAux_digits (n + 1) n c hc
  · rw [if_neg h] at hc
    simp at hc
    subst hc
    decide

theorem serNat_ne_nil (n : Nat) : serNat n ≠ [] := by
  rw [serNat]
  by_cases h : 0 < n
  · rw [if_pos h, serNatAux, if_neg (by omega : ¬ n = 0)]
    simp
  · rw [if_neg h]
    simp

theorem digitsToNat_serNat (n : Nat) : digitsToNat (serNat n) = n := by
  rw [serNat]
  by_cases h : 0 < n
  · rw [if_pos h]
    refine serNatAux_correct (n + 1) n ?_
    calc n < 10 ^ n := Nat.lt_pow_self (by norm_num) n
    _ ≤ 10 ^ (n + 1) := Nat.pow_le_pow_right (by norm_num) (Nat.le_succ n)
  · rw [if_neg h]
    have hz : n = 0 := by omega
    rw [hz]
    decide

theorem serNat_cons (n : Nat) : ∃ d ds, serNat n = d :: ds ∧ d.isDigit = true := by
  rcases h : serNat n with - | ⟨d, ds⟩
  · exact absurd h (serNat_ne_nil n)
  · exact ⟨d, ds, rfl, serNat_digits n d (by rw [h]; exact List.mem_cons_self _ _)⟩

theorem takeWhile_digit_append (l : List Char) : ∀ r : List Char,
    (∀ c ∈ l, c.isDigit = true) → notDigitStart r = true →
    (l ++ r).takeWhile Char.isDigit = l ∧ (l ++ r).dropWhile Char.isDigit = r := by
  induction l with
  | nil =>
    intro r _ hr
    cases r with
    | nil => exact ⟨rfl, rfl⟩
    | cons c cs =>
      have : c.isDigit = false := by simpa [notDigitStart] using hr
      simp [List.takeWhile_cons, List.dropWhile_cons, this]
  | cons a l' ih =>
    intro r hl hr
    have ha : a.isDigit = true := hl a (List.mem_cons_self _ _)
    have hrec := ih r (fun c hc => hl c (List.mem_cons_of_mem _ hc)) hr
    simp [List.takeWhile_cons, List.dropWhile_cons, ha, hrec.1, hrec.2]

theorem parseNat_serNat (n : Nat) (rest : List Char) (hr : notDigitStart rest = true) :
    parseNatChars (serNat n ++ rest) = some (n, rest) := by
  obtain ⟨htake, hdrop⟩ := takeWhile_digit_append (serNat n) rest (serNat_digits n) hr
  have hne : (serNat n).isEmpty = false := by
    rcases h : serNat n with - | ⟨d, ds⟩
    · exact absurd h (serNat_ne_nil n)
    · rfl
  rw [parseNatChars]
  simp only [htake, hdrop, hne, Bool.false_eq_true, if_false]
  rw [digitsToNat_serNat]

theorem parseStr_escList (s : List Char) : ∀ rest : List Char,
    parseStrChars (escList s ++ '"' :: rest) = some (s, rest) := by
  induction s with
  | nil =>
    intro rest
    rw [escList, List.nil_append, parseStrChars.eq_def]
    simp
  | cons c cs ih =>
    intro rest
    rw [escList]
    by_cases h : c = '"' || c = '\\'
    · rw [if_pos h, List.cons_append, List.cons_append, parseStrChars.eq_def]
      simp [ih rest]
    · rw [if_neg h]
      have h1 : ¬ c = '"' := by intro hh; simp [hh] at h
      have h2 : ¬ c = '\\' := by intro hh; simp [hh] at h
      rw [List.cons_append, parseStrChars.eq_def]
      simp only [if_neg h2, if_neg h1, ih rest]

theorem dropPfx_self (p : List Char) : ∀ rest : List Char, dropPfx p (p ++ rest) = some rest := by
  induction p with
  | nil => intro rest; rfl
  | cons a ps ih => intro rest; simp [dropPfx, ih rest]

theorem isDigit_ne_delims (c : Char) (h : c.isDigit = true) :
    c ≠ ']' ∧ c ≠ '-' ∧ c ≠ '\x7b' ∧ c ≠ '[' ∧ c ≠ '"' ∧ c ≠ 'f' ∧ c ≠ 't' ∧ c ≠ 'n' := by
  refine ⟨?_, ?_, ?_, ?_, ?_, ?_, ?_, ?_⟩ <;> (rintro rfl; revert h; decide)

theorem serVal_head_ne_rbracket (x : JSValue) (hok : jsonOk x = true) :
    ∃ c cs, serVal x = c :: cs ∧ ¬ c = ']' := by
  cases x with
  | undefined => simp [jsonOk] at hok
  | null => exact ⟨'n', ['u', 'l', 'l'], by simp [serVal], by decide⟩
  | bool b =>
    cases b
    · exact ⟨'f', ['a', 'l', 's', 'e'], by simp [serVal], by decide⟩
    · exact ⟨'t', ['r', 'u', 'e'], by simp [serVal], by decide⟩
  | num n =>
    by_cases hneg : n < 0
    · exact ⟨'-', serNat (-n).toNat, by simp [serVal, serInt, hneg], by decide⟩
    · obtain ⟨d, ds, hd, hdig⟩ := serNat_cons n.toNat
      exact ⟨d, ds, by simp [serVal, serInt, hneg, hd],
        (isDigit_ne_delims d hdig).1⟩
  | str s => exact ⟨'"', escList s.data ++ ['"'], by simp [serVal], by decide⟩
  | arr xs => exact ⟨'[', serArr xs ++ [']'], by simp [serVal], by decide⟩
  | obj fs => exact ⟨'{', serObj fs ++ ['}'], by simp [serVal], by decide⟩

theorem parse_ser (fuel : Nat) :
    (∀ x rest, jsonOk x = true → (serVal x).length ≤ fuel → notDigitStart rest = true →
      parseVal fuel (serVal x ++ rest) = some (x, rest)) ∧
    (∀ xs rest, jsonOkL xs = true → (serArr xs).length + 1 ≤ fuel →
      parseElems fuel (serArr xs ++ ']' :: rest) = some (xs, rest)) ∧
    (∀ fs rest, jsonOkO fs = true → (serObj fs).length + 1 ≤ fuel →
      parseMembers fuel (serObj fs ++ '}' :: rest) = some (fs, rest)) := by
  induction fuel using Nat.strong_induction_on with
  | _ fuel ih =>
  rcases fuel with - | f
  · refine ⟨?_, ?_, ?_⟩
    · intro x rest hok hlen hnd
      obtain ⟨c, cs, hc, -⟩ := serVal_head_ne_rbracket x hok
      rw [hc] at hlen
      simp at hlen
    · intro xs rest _ hlen
      omega
    · intro fs rest _ hlen
      omega
  · obtain ⟨ihV, ihE, ihM⟩ := ih f (Nat.lt_succ_self f)
    refine ⟨?_, ?_, ?_⟩
    · intro x rest hok hlen hnd
      cases x with
      | undefined => rw [jsonOk] at hok; cases hok
      | null =>
        have hser : serVal .null = ['n', 'u', 'l', 'l'] := by simp [serVal]
        have hd : dropPfx ['u', 'l', 'l'] ('u' :: 'l' :: 'l' :: rest) = some rest := by
          simpa using dropPfx_self ['u', 'l', 'l'] rest
        rw [hser]
        rw [show (['n', 'u', 'l', 'l'] : List Char) ++ rest = 'n' :: 'u' :: 'l' :: 'l' :: rest from rfl]
        rw [parseVal.eq_def]
        simp [hd]
      | bool b =>
        cases b
        · have hser : serVal (.bool false) = ['f', 'a', 'l', 's', 'e'] := by simp [serVal]
          have hd : dropPfx ['a', 'l', 's', 'e'] ('a' :: 'l' :: 's' :: 'e' :: rest) = some rest := by
            simpa using dropPfx_self ['a', 'l', 's', 'e'] rest
          rw [hser]
          rw [show (['f', 'a', 'l', 's', 'e'] : List Char) ++ rest =
            'f' :: 'a' :: 'l' :: 's' :: 'e' :: rest from rfl]
          rw [parseVal.eq_def]
          simp [hd]
        · have hser : serVal (.bool true) = ['t', 'r', 'u', 'e'] := by simp [serVal]
          have hd : dropPfx ['r', 'u', 'e'] ('r' :: 'u' :: 'e' :: rest) = some rest := by
            simpa using dropPfx_self ['r', 'u', 'e'] rest
          rw [hser]
          rw [show (['t', 'r', 'u', 'e'] : List Char) ++ rest = 't' :: 'r' :: 'u' :: 'e' :: rest from rfl]
          rw [parseVal.eq_def]
          simp [hd]
      | num n =>
        by_cases hneg : n < 0
        · have hser : serVal (.num n) = '-' :: serNat (-n).toNat := by
            simp [serVal, serInt, hneg]
          have hpn := parseNat_serNat (-n).toNat rest hnd
          have harg : (-((((-n).toNat : Nat)) : Int)) = n := by omega
          have hcast : JSValue.num (-(((-n).toNat : Nat) : Int)) = JSValue.num n := by
            rw [harg]
          rw [hser, List.cons_append, parseVal.eq_def]
          simp [hpn]
          omega
        · obtain ⟨d, ds, hd, hdig⟩ := serNat_cons n.toNat
          have hser : serVal (.num n) = serNat n.toNat := by
            simp [serVal, serInt, hneg]
          have hpn := parseNat_serNat n.toNat rest hnd
          rw [hd] at hpn
          simp only [List.cons_append] at hpn
          obtain ⟨-, hn7, hn6, hn5, hn4, hn3, hn2, hn1⟩ := isDigit_ne_delims d hdig
          have hcast : ((n.toNat : Nat) : Int) = n := Int.toNat_of_nonneg (by omega)
          rw [hser, hd, List.cons_append, parseVal.eq_def]
          simp only [if_neg hn1, if_neg hn2, if_neg hn3, if_neg hn4, if_neg hn5,
            if_neg hn6, if_neg hn7, hpn, hcast]
      | str s =>
        obtain ⟨sl⟩ := s
        have hser : serVal (.str ⟨sl⟩) = '"' :: escList sl ++ ['"'] := by simp [serVal]
        have hps := parseStr_escList sl rest
        rw [hser]
        simp only [List.cons_append, List.append_assoc, List.singleton_append]
        rw [parseVal.eq_def]
        simp [hps]
      | arr xs =>
        have hok' : jsonOkL xs = true := by rw [jsonOk] at hok; exact hok
        have hser : serVal (.arr xs) = '[' :: serArr xs ++ [']'] := by simp [serVal]
        have hlen' : (serArr xs).length + 1 ≤ f := by
          rw [hser] at hlen
          simp at hlen
          omega
        have hpe := ihE xs rest hok' hlen'
        rw [hser]
        simp only [List.cons_append, List.append_assoc, List.singleton_append]
        rw [parseVal.eq_def]
        simp [hpe]
      | obj fs =>
        have hok' : jsonOkO fs = true := by rw [jsonOk] at hok; exact hok
        have hser : serVal (.obj fs) = '{' :: serObj fs ++ ['}'] := by simp [serVal]
        have hlen' : (serObj fs).length + 1 ≤ f := by
          rw [hser] at hlen
          simp at hlen
          omega
        have hpm := ihM fs rest hok' hlen'
        rw [hser]
        simp only [List.cons_append, List.append_assoc, List.singleton_append]
        rw [parseVal.eq_def]
        simp [hpm]
    · intro xs rest hok hlen
      cases xs with
      | nil =>
        rw [show serArr [] ++ ']' :: rest = ']' :: rest from by simp [serArr]]
        rw [parseElems.eq_def]
        simp
      | cons x xs' =>
        rw [jsonOkL] at hok
        simp only [Bool.and_eq_true] at hok
        have hokx : jsonOk x = true := hok.1
        have hokxs : jsonOkL xs' = true := hok.2
        obtain ⟨c, cs, hc, hcne⟩ := serVal_head_ne_rbracket x hokx
        cases xs' with
        | nil =>
          have hserA : serArr [x] = serVal x := by simp [serArr]
          have hlenx : (serVal x).length ≤ f := by
            rw [hserA] at hlen
            omega
          have hpv := ihV x (']' :: rest) hokx hlenx rfl
          rw [hserA, hc]
          rw [hc] at hpv
          simp only [List.cons_append] at hpv ⊢
          rw [parseElems.eq_def]
          simp only [if_neg hcne]
          rw [hpv]
          simp
        | cons y ys =>
          have hserA : serArr (x :: y :: ys) = serVal x ++ ',' :: serArr (y :: ys) := by
            simp [serArr]
          rw [hserA] at hlen ⊢
          simp only [List.length_append, List.length_cons] at hlen
          have hlenx : (serVal x).length ≤ f := by omega
          have hlenys : (serArr (y :: ys)).length + 1 ≤ f := by omega
          have hpv := ihV x (',' :: (serArr (y :: ys) ++ ']' :: rest)) hokx hlenx rfl
          have hpe := ihE (y :: ys) rest hokxs hlenys
          rw [hc] at hpv ⊢
          simp only [List.cons_append, List.append_assoc] at hpv ⊢
          rw [parseElems.eq_def]
          simp only [if_neg hcne]
          rw [hpv]
          simp [hpe]
    · intro fs rest hok hlen
      cases fs with
      | nil =>
        rw [show serObj [] ++ '}' :: rest = '}' :: rest from by simp [serObj]]
        rw [parseMembers.eq_def]
        simp
      | cons kv fs' =>
        obtain ⟨k, v⟩ := kv
        obtain ⟨kl⟩ := k
        rw [jsonOkO] at hok
        simp only [Bool.and_eq_true] at hok
        have hokv : jsonOk v = true := hok.1
        have hokfs : jsonOkO fs' = true := hok.2
        cases fs' with
        | nil =>
          have hserO : serObj [(⟨kl⟩, v)] = '"' :: escList kl ++ '"' :: ':' :: serVal v := by
            simp [serObj]
          rw [hserO] at hlen ⊢
          simp only [List.length_cons, List.length_append] at hlen
          have hlenv : (serVal v).length ≤ f := by omega
          have hpv := ihV v ('}' :: rest) hokv hlenv rfl
          have hps := parseStr_escList kl (':' :: (serVal v ++ '}' :: rest))
          simp only [List.cons_append, List.append_assoc] at hps hpv ⊢
          rw [parseMembers.eq_def]
          simp only [show ¬ ('"' : Char) = '}' from by decide, if_neg, if_pos rfl]
          rw [hps]
          simp only []
          rw [hpv]
          simp
        | cons m ms =>
          have hserO : serObj ((⟨kl⟩, v) :: m :: ms) =
              ('"' :: escList kl ++ '"' :: ':' :: serVal v) ++ ',' :: serObj (m :: ms) := by
            simp [serObj]
          rw [hserO] at hlen ⊢
          simp only [List.length_append, List.length_cons] at hlen
          have hlenv : (serVal v).length ≤ f := by omega
          have hlenms : (serObj (m :: ms)).length + 1 ≤ f := by omega
          have hpv := ihV v (',' :: (serObj (m :: ms) ++ '}' :: rest)) hokv hlenv rfl
          have hpm := ihM (m :: ms) rest hokfs hlenms
          have hps := parseStr_escList kl (':' :: (serVal v ++ ',' :: (serObj (m :: ms) ++ '}' :: rest)))
          simp only [List.cons_append, List.append_assoc] at hps hpv ⊢
          rw [parseMembers.eq_def]
          simp only [show ¬ ('"' : Char) = '}' from by decide, if_neg, if_pos rfl]
          rw [hps]
          simp only []
          rw [hpv]
          simp [hpm]

theorem parse_stringify (x : JSValue) (hok : jsonOk x = true) :
    parseJson (stringify x) = some x := by
  have h := (parse_ser ((serVal x).length + 1)).1 x [] hok (by omega) rfl
  rw [List.append_nil] at h
  rw [parseJson]
  have hdata : (stringify x).data = serVal x := rfl
  rw [hdata, h]

/-- Claim C8: for every JSON-serializable value, `formatResponse` produces a
content envelope holding a single text block with the serialized payload, and
extracting that payload and deserializing it yields the original value. -/
theorem format_response_round_trip (x : JSValue) (hok : jsonOk x = true) :
    extractPayload (formatResponse x) = some (stringify x) ∧
    parseJson (stringify x) = some x :=
  ⟨rfl, parse_stringify x hok⟩

theorem format_response_round_trip_witness :
    jsonOk (JSValue.obj
      [("a", .arr [.null, .num (-42), .str "x\"y\\z", .bool true]), ("b", .obj [])]) = true ∧
    parseJson (stringify (JSValue.obj
      [("a", .arr [.null, .num (-42), .str "x\"y\\z", .bool true]), ("b", .obj [])])) =
      some (JSValue.obj
      [("a", .arr [.null, .num (-42), .str "x\"y\\z", .bool true]), ("b", .obj [])]) :=
  ⟨rfl, (format_response_round_trip (JSValue.obj
      [("a", .arr [.null, .num (-42), .str "x\"y\\z", .bool true]), ("b", .obj [])]) rfl).2⟩
